import Mathlib

/-!
Shallow embedding of `src/data_classes.py` from MyosQ/bitcoin-from-scratch,
together with proofs about the claims of its specification.

Python `int` is modelled as `Int`; Python `%` and `//` on a positive modulus
agree with Lean's `Int.emod` / `Int.ediv`.  A value that may be `None` is
modelled as an `Option`.  Python exceptions are modelled by `Except PyErr`:
a failed `assert` becomes `PyErr.domainError`, arithmetic on `None`
(`TypeError` / `AttributeError`) becomes `PyErr.typeError`, and
`int.to_bytes` overflow becomes `PyErr.overflowError`.
-/

set_option maxRecDepth 10000

/-- Python exceptions that the embedded code can raise. -/
inductive PyErr where
  /-- a failed validation `assert` (spec: `DomainError`) -/
  | domainError
  /-- Python `TypeError`/`AttributeError` from using `None` as a number/object -/
  | typeError
  /-- Python `OverflowError` from `int.to_bytes` on an out-of-range value -/
  | overflowError
deriving DecidableEq

instance {ε α : Type} [DecidableEq ε] [DecidableEq α] : DecidableEq (Except ε α)
  | .error a, .error b =>
    if h : a = b then .isTrue (congrArg Except.error h)
    else .isFalse (fun he => h (Except.error.inj he))
  | .error _, .ok _ => .isFalse Except.noConfusion
  | .ok _, .error _ => .isFalse Except.noConfusion
  | .ok a, .ok b =>
    if h : a = b then .isTrue (congrArg Except.ok h)
    else .isFalse (fun he => h (Except.ok.inj he))

/-- The `Curve` record: an elliptic curve `y^2 = x^3 + a*x + b` over the
integers modulo `p`.  (Python class `Curve`, its data fields only.) -/
structure Curve where
  p : Int
  a : Int
  b : Int
deriving DecidableEq

/-- The checks performed by `Curve.__init__`: `p > 3`, non-singularity and
primality of `p` (primality is delegated to `utils.is_prime`, which is not
under `src/`; per the spec it is an external primality oracle). -/
def Curve.valid (c : Curve) : Prop :=
  3 < c.p ∧ (4 * c.a ^ 3 + 27 * c.b ^ 2) % c.p ≠ 0 ∧ Nat.Prime c.p.toNat

instance (c : Curve) : Decidable c.valid := by
  unfold Curve.valid; infer_instance

/-- The `Point` record: fields `curve`, `x`, `y`, any of which can be Python
`None` (the point at infinity is stored as `x = y = None`). -/
structure Point where
  curve : Option Curve
  x : Option Int
  y : Option Int
deriving DecidableEq

/-- The curve-membership equation checked by `Point.__init__`:
`y**2 % p == (x**3 + a*x + b) % p`. -/
def onCurveEq (c : Curve) (x y : Int) : Prop :=
  y ^ 2 % c.p = (x ^ 3 + c.a * x + c.b) % c.p

instance (c : Curve) (x y : Int) : Decidable (onCurveEq c x y) := by
  unfold onCurveEq; infer_instance

/-- Python `Point.__init__`: unless both coordinates are `None`, assert the curve
equation ("Point is not on the curve").  Evaluating the assert with a `None`
coordinate or a `None` curve raises a Python `TypeError`/`AttributeError`. -/
def mkPoint (curve : Option Curve) (x y : Option Int) : Except PyErr Point :=
  if x = none ∧ y = none then .ok ⟨curve, x, y⟩
  else
    match curve, x, y with
    | some c, some xv, some yv =>
      if onCurveEq c xv yv then .ok ⟨curve, x, y⟩ else .error .domainError
    | _, _, _ => .error .typeError

/-- The value `Point(None, None, None)` built by `Point.from_ideal_point`. -/
def idealPoint : Point := ⟨none, none, none⟩

/-- Python `Point.from_ideal_point`: `cls(None, None, None)`. -/
def Point.from_ideal_point : Except PyErr Point := mkPoint none none none

/-- Python `Point.is_ideal_point`: `self.x is None and self.y is None`. -/
def Point.is_ideal_point (P : Point) : Bool := P.x.isNone && P.y.isNone

/-- The loop body of `extended_euclidean_algorithm` (defined inside
`Point.__add__`): `while r != 0`, update the three Bézout pairs with the
quotient `old_r // r`.  The loop is embedded with an explicit fuel argument;
`r` is replaced by `old_r % r` each iteration, so `b.natAbs + 1` units of
fuel always suffice for the initial call. -/
def eeaGo (fuel : Nat) (oldR r oldS s oldT t : Int) : Int × Int × Int :=
  match fuel with
  | 0 => (oldR, oldS, oldT)
  | fuel + 1 =>
    if r = 0 then (oldR, oldS, oldT)
    else
      let quotient := oldR / r
      eeaGo fuel r (oldR - quotient * r) s (oldS - quotient * s) t (oldT - quotient * t)

/-- Python `extended_euclidean_algorithm(a, b)`: returns `(gcd, x, y)` with
`a * x + b * y == gcd`. -/
def extended_euclidean_algorithm (a b : Int) : Int × Int × Int :=
  eeaGo (b.natAbs + 1) a b 1 0 0 1

/-- Python `inv(n, p)` (defined inside `Point.__add__`): the Bézout coefficient of
`n`, reduced mod `p`. -/
def inv (n p : Int) : Int :=
  (extended_euclidean_algorithm n p).2.1 % p

/-- The tail of `Point.__add__` shared by both slope branches: given the
slope `m`, compute `rx = (m**2 - self.x - other.x) % p`,
`ry = (-(m*(rx - self.x) + self.y)) % p` and build `Point(curve, rx, ry)`
(which re-runs the curve-membership assert). -/
def mkAddResult (c : Curve) (m x1 y1 x2 : Int) : Except PyErr Point :=
  let rx := (m ^ 2 - x1 - x2) % c.p
  let ry := (-(m * (rx - x1) + y1)) % c.p
  mkPoint (some c) (some rx) (some ry)

/-- Python `Point.__add__`.  Mirrors the Python branch order: identity cases for the
ideal point, then `P + (-P) = 0` (a comparison of possibly-`None` fields,
like Python `==`/`!=`), then the doubling slope, then the distinct-`x` slope.
Arithmetic on a `None` coordinate or a `None` curve raises `TypeError`. -/
def Point.add (P Q : Point) : Except PyErr Point :=
  if P.is_ideal_point then .ok Q
  else if Q.is_ideal_point then .ok P
  else if P.x = Q.x ∧ P.y ≠ Q.y then .ok idealPoint
  else if P.x = Q.x then
    match P.curve, P.x, P.y, Q.x with
    | some c, some x1, some y1, some x2 =>
      mkAddResult c ((3 * x1 ^ 2 + c.a) * inv (2 * y1) c.p) x1 y1 x2
    | _, _, _, _ => .error .typeError
  else
    match P.curve, P.x, P.y, Q.x, Q.y with
    | some c, some x1, some y1, some x2, some y2 =>
      mkAddResult c ((y1 - y2) * inv (x1 - x2) c.p) x1 y1 x2
    | _, _, _, _, _ => .error .typeError

/-- The loop of `Point.__rmul__` (double-and-add): `while k:` add `append`
into `result` when the low bit is set, then always replace `append` by
`append + append` and shift `k`.  Embedded with fuel; `k` at least halves
each iteration, so `k + 1` units of fuel always suffice. -/
def rmulGo (fuel k : Nat) (result append : Point) : Except PyErr Point :=
  match fuel with
  | 0 => .ok result
  | fuel + 1 =>
    if k = 0 then .ok result
    else do
      let result' ← if k % 2 = 1 then Point.add result append else pure result
      let append' ← Point.add append append
      rmulGo fuel (k / 2) result' append'

/-- Python `Point.__rmul__` for a non-negative scalar `k` (`k * P` / `P * k`). -/
def Point.rmul (k : Nat) (P : Point) : Except PyErr Point :=
  rmulGo (k + 1) k idealPoint P

/-- The value of `P` added to itself `k` times by repeated point addition, as the spec
words it ("`k·P` computed this way must equal `P` added to itself `k`
times"): `0` copies give the point at infinity, `k+1` copies add one more
`P`.  This is the spec-side reference definition compared against
`Point.rmul`. -/
def repeatedAdd (k : Nat) (P : Point) : Except PyErr Point :=
  match k with
  | 0 => .ok idealPoint
  | k + 1 => do
    let Q ← repeatedAdd k P
    Point.add Q P

/-- The list of arguments that `Point.__add__ P Q` passes to the modular
inverse helper `inv`, branch by branch: none in the identity and
`P + (-P)` cases, `2*y1` in the doubling case, `x1 - x2` in the
distinct-`x` case (and none where Python would raise a `TypeError`
before reaching `inv`). -/
def addInvArgs (P Q : Point) : List Int :=
  if P.is_ideal_point then []
  else if Q.is_ideal_point then []
  else if P.x = Q.x ∧ P.y ≠ Q.y then []
  else if P.x = Q.x then
    match P.y with
    | some y1 => [2 * y1]
    | none => []
  else
    match P.x, Q.x with
    | some x1, some x2 => [x1 - x2]
    | _, _ => []

/-- A finite point of the system lying on curve `c` with the data-model
invariants of the spec: bound to `c`, integer coordinates in `[0, p)`,
satisfying the curve equation. -/
def Point.validFin (c : Curve) (P : Point) : Prop :=
  ∃ x y : Int, P = ⟨some c, some x, some y⟩ ∧
    0 ≤ x ∧ x < c.p ∧ 0 ≤ y ∧ y < c.p ∧ onCurveEq c x y

/-- A point value of the system on curve `c`: either the point at infinity
as the system constructs it (`Point.from_ideal_point`), or a valid finite
point bound to `c`. -/
def Point.validOn (c : Curve) (P : Point) : Prop :=
  P = idealPoint ∨ P.validFin c

/-- The 32-byte big-endian byte list of a non-negative integer, most
significant byte first (the value Python's `n.to_bytes(length, "big")`
returns when it succeeds). -/
def bytesBE (n : Int) (length : Nat) : List Nat :=
  (List.range length).map fun i => n.toNat / 256 ^ (length - 1 - i) % 256

/-- Python `n.to_bytes(length, "big")`: raises `OverflowError` when `n` is
negative or does not fit in `length` bytes. -/
def to_bytes_big (n : Int) (length : Nat) : Except PyErr (List Nat) :=
  if 0 ≤ n ∧ n < 2 ^ (8 * length) then .ok (bytesBE n length)
  else .error .overflowError

/-- Modelled from the spec: `sha256` is imported from the repository's
`utils` module, which is not under `src/`; §6 specifies it as standard,
bit-exact SHA-256 over a whole byte buffer.  What follows is the standard
FIPS 180-4 SHA-256, on lists of bytes (naturals `< 256`). -/
def sha256K : List Nat :=
  [1116352408, 1899447441, 3049323471, 3921009573, 961987163, 1508970993,
   2453635748, 2870763221, 3624381080, 310598401, 607225278, 1426881987,
   1925078388, 2162078206, 2614888103, 3248222580, 3835390401, 4022224774,
   264347078, 604807628, 770255983, 1249150122, 1555081692, 1996064986,
   2554220882, 2821834349, 2952996808, 3210313671, 3336571891, 3584528711,
   113926993, 338241895, 666307205, 773529912, 1294757372, 1396182291,
   1695183700, 1986661051, 2177026350, 2456956037, 2730485921, 2820302411,
   3259730800, 3345764771, 3516065817, 3600352804, 4094571909, 275423344,
   430227734, 506948616, 659060556, 883997877, 958139571, 1322822218,
   1537002063, 1747873779, 1955562222, 2024104815, 2227730452, 2361852424,
   2428436474, 2756734187, 3204031479, 3329325298]

/-- SHA-256 initial hash value. -/
def sha256H0 : List Nat :=
  [1779033703, 3144134277, 1013904242, 2773480762, 1359893119, 2600822924,
   528734635, 1541459225]

/-- Right rotation of a 32-bit word. -/
def rotr32 (n x : Nat) : Nat := x / 2 ^ n + x % 2 ^ n * 2 ^ (32 - n)

/-- Left rotation of a 32-bit word. -/
def rotl32 (n x : Nat) : Nat := x % 2 ^ (32 - n) * 2 ^ n + x / 2 ^ (32 - n)

/-- Addition modulo `2^32`. -/
def add32 (a b : Nat) : Nat := (a + b) % 4294967296

/-- SHA-256 message padding: append `0x80`, zero bytes to 56 mod 64, then
the 8-byte big-endian bit length. -/
def sha256pad (msg : List Nat) : List Nat :=
  let padLen := (120 - (msg.length + 1) % 64) % 64
  msg ++ 0x80 :: List.replicate padLen 0 ++ bytesBE (8 * msg.length) 8

/-- Big-endian 32-bit words of a byte list. -/
def bytesToWordsBE (bs : List Nat) : List Nat :=
  (List.range (bs.length / 4)).map fun i =>
    bs.getD (4 * i) 0 * 2 ^ 24 + bs.getD (4 * i + 1) 0 * 2 ^ 16 +
    bs.getD (4 * i + 2) 0 * 2 ^ 8 + bs.getD (4 * i + 3) 0

/-- Big-endian bytes of a list of 32-bit words. -/
def wordsToBytesBE (ws : List Nat) : List Nat :=
  ws.foldr (fun w acc => bytesBE (w : Int) 4 ++ acc) []

/-- Extend 16 message words by `n` more schedule words. -/
def sha256extend : Nat → List Nat → List Nat
  | 0, w => w
  | n + 1, w =>
    let i := w.length
    let s0 := rotr32 7 (w.getD (i - 15) 0) ^^^ rotr32 18 (w.getD (i - 15) 0) ^^^ w.getD (i - 15) 0 / 2 ^ 3
    let s1 := rotr32 17 (w.getD (i - 2) 0) ^^^ rotr32 19 (w.getD (i - 2) 0) ^^^ w.getD (i - 2) 0 / 2 ^ 10
    sha256extend n (w ++ [(w.getD (i - 16) 0 + s0 + w.getD (i - 7) 0 + s1) % 4294967296])

/-- One SHA-256 round: state `[a,b,c,d,e,f,g,h]`, round input `K[i]+W[i]`. -/
def sha256round (st : List Nat) (kw : Nat) : List Nat :=
  let a := st.getD 0 0
  let b := st.getD 1 0
  let c := st.getD 2 0
  let d := st.getD 3 0
  let e := st.getD 4 0
  let f := st.getD 5 0
  let g := st.getD 6 0
  let h := st.getD 7 0
  let s1 := rotr32 6 e ^^^ rotr32 11 e ^^^ rotr32 25 e
  let ch := (e &&& f) ^^^ ((e ^^^ 4294967295) &&& g)
  let t1 := (h + s1 + ch + kw) % 4294967296
  let s0 := rotr32 2 a ^^^ rotr32 13 a ^^^ rotr32 22 a
  let mj := (a &&& b) ^^^ (a &&& c) ^^^ (b &&& c)
  let t2 := (s0 + mj) % 4294967296
  [add32 t1 t2, a, b, c, add32 d t1, e, f, g]

/-- SHA-256 compression of one 64-byte block into the running hash. -/
def sha256compress (h : List Nat) (block : List Nat) : List Nat :=
  let w := sha256extend 48 (bytesToWordsBE block)
  let fin := (List.range 64).foldl
    (fun st i => sha256round st (add32 (sha256K.getD i 0) (w.getD i 0))) h
  (h.zip fin).map fun p => add32 p.1 p.2

/-- Fold SHA-256 compression over consecutive 64-byte blocks (fuel is the
byte length, which bounds the number of blocks). -/
def sha256blocks : Nat → List Nat → List Nat → List Nat
  | 0, h, _ => h
  | fuel + 1, h, msg =>
    match msg with
    | [] => h
    | _ => sha256blocks fuel (sha256compress h (msg.take 64)) (msg.drop 64)

/-- Modelled from the spec: standard SHA-256 (`utils.sha256` is not under
`src/`; §6: `SHA-256: bytes → 32 bytes`, standard, bit-exact). -/
def sha256 (msg : List Nat) : List Nat :=
  let padded := sha256pad msg
  wordsToBytesBE (sha256blocks padded.length sha256H0 padded)

/-- RIPEMD-160 left-line message word order (5 rounds of 16). -/
def rmdR : List Nat :=
  [0, 1, 2, 3, 4, 5, 6, 7, 8, 9, 10, 11, 12, 13, 14, 15,
   7, 4, 13, 1, 10, 6, 15, 3, 12, 0, 9, 5, 2, 14, 11, 8,
   3, 10, 14, 4, 9, 15, 8, 1, 2, 7, 0, 6, 13, 11, 5, 12,
   1, 9, 11, 10, 0, 8, 12, 4, 13, 3, 7, 15, 14, 5, 6, 2,
   4, 0, 5, 9, 7, 12, 2, 10, 14, 1, 3, 8, 11, 6, 15, 13]

/-- RIPEMD-160 right-line message word order. -/
def rmdRp : List Nat :=
  [5, 14, 7, 0, 9, 2, 11, 4, 13, 6, 15, 8, 1, 10, 3, 12,
   6, 11, 3, 7, 0, 13, 5, 10, 14, 15, 8, 12, 4, 9, 1, 2,
   15, 5, 1, 3, 7, 14, 6, 9, 11, 8, 12, 2, 10, 0, 4, 13,
   8, 6, 4, 1, 3, 11, 15, 0, 5, 12, 2, 13, 9, 7, 10, 14,
   12, 15, 10, 4, 1, 5, 8, 7, 6, 2, 13, 14, 0, 3, 9, 11]

/-- RIPEMD-160 left-line rotation amounts. -/
def rmdS : List Nat :=
  [11, 14, 15, 12, 5, 8, 7, 9, 11, 13, 14, 15, 6, 7, 9, 8,
   7, 6, 8, 13, 11, 9, 7, 15, 7, 12, 15, 9, 11, 7, 13, 12,
   11, 13, 6, 7, 14, 9, 13, 15, 14, 8, 13, 6, 5, 12, 7, 5,
   11, 12, 14, 15, 14, 15, 9, 8, 9, 14, 5, 6, 8, 6, 5, 12,
   9, 15, 5, 11, 6, 8, 13, 12, 5, 12, 13, 14, 11, 8, 5, 6]

/-- RIPEMD-160 right-line rotation amounts. -/
def rmdSp : List Nat :=
  [8, 9, 9, 11, 13, 15, 15, 5, 7, 7, 8, 11, 14, 14, 12, 6,
   9, 13, 15, 7, 12, 8, 9, 11, 7, 7, 12, 7, 6, 15, 13, 11,
   9, 7, 15, 11, 8, 6, 6, 14, 12, 13, 5, 14, 13, 13, 7, 5,
   15, 5, 8, 11, 14, 14, 6, 14, 6, 9, 12, 9, 12, 5, 15, 8,
   8, 5, 12, 9, 12, 5, 14, 6, 8, 13, 6, 5, 15, 13, 11, 11]

/-- RIPEMD-160 round function selected by step index `j`. -/
def rmdF (j x y z : Nat) : Nat :=
  if j < 16 then x ^^^ y ^^^ z
  else if j < 32 then (x &&& y) ||| ((x ^^^ 4294967295) &&& z)
  else if j < 48 then (x ||| (y ^^^ 4294967295)) ^^^ z
  else if j < 64 then (x &&& z) ||| (y &&& (z ^^^ 4294967295))
  else x ^^^ (y ||| (z ^^^ 4294967295))

/-- RIPEMD-160 left-line round constants (one per 16 steps). -/
def rmdK (j : Nat) : Nat :=
  if j < 16 then 0 else if j < 32 then 1518500249
  else if j < 48 then 1859775393 else if j < 64 then 2400959708 else 2840853838

/-- RIPEMD-160 right-line round constants. -/
def rmdKp (j : Nat) : Nat :=
  if j < 16 then 1352829926 else if j < 32 then 1548603684
  else if j < 48 then 1836072691 else if j < 64 then 2053994217 else 0

/-- Little-endian 32-bit words of a byte list. -/
def bytesToWordsLE (bs : List Nat) : List Nat :=
  (List.range (bs.length / 4)).map fun i =>
    bs.getD (4 * i) 0 + bs.getD (4 * i + 1) 0 * 2 ^ 8 +
    bs.getD (4 * i + 2) 0 * 2 ^ 16 + bs.getD (4 * i + 3) 0 * 2 ^ 24

/-- Little-endian bytes of a list of 32-bit words. -/
def wordsToBytesLE (ws : List Nat) : List Nat :=
  ws.foldr (fun w acc => [w % 256, w / 2 ^ 8 % 256, w / 2 ^ 16 % 256, w / 2 ^ 24 % 256] ++ acc) []

/-- One line of RIPEMD-160: run 80 steps over state `[A,B,C,D,E]` using the
given word order, shifts, constants and round-function index map. -/
def rmdLine (x : List Nat) (order shifts : List Nat) (kf : Nat → Nat) (fIdx : Nat → Nat)
    (st : List Nat) : List Nat :=
  (List.range 80).foldl
    (fun st j =>
      let a := st.getD 0 0
      let b := st.getD 1 0
      let c := st.getD 2 0
      let d := st.getD 3 0
      let e := st.getD 4 0
      let t := add32 (rotl32 (shifts.getD j 0)
        ((a + rmdF (fIdx j) b c d + x.getD (order.getD j 0) 0 + kf j) % 4294967296)) e
      [e, t, b, rotl32 10 c, d])
    st

/-- RIPEMD-160 initial state. -/
def rmdH0 : List Nat := [1732584193, 4023233417, 2562383102, 271733878, 3285377520]

/-- RIPEMD-160 compression of one 64-byte block. -/
def rmdCompress (h : List Nat) (block : List Nat) : List Nat :=
  let x := bytesToWordsLE block
  let l := rmdLine x rmdR rmdS rmdK (fun j => j) h
  let r := rmdLine x rmdRp rmdSp rmdKp (fun j => 79 - j) h
  [add32 (h.getD 1 0) (add32 (l.getD 2 0) (r.getD 3 0)),
   add32 (h.getD 2 0) (add32 (l.getD 3 0) (r.getD 4 0)),
   add32 (h.getD 3 0) (add32 (l.getD 4 0) (r.getD 0 0)),
   add32 (h.getD 4 0) (add32 (l.getD 0 0) (r.getD 1 0)),
   add32 (h.getD 0 0) (add32 (l.getD 1 0) (r.getD 2 0))]

/-- RIPEMD-160 message padding: append `0x80`, zero bytes to 56 mod 64, then
the 8-byte little-endian bit length. -/
def rmdPad (msg : List Nat) : List Nat :=
  let padLen := (120 - (msg.length + 1) % 64) % 64
  msg ++ 0x80 :: List.replicate padLen 0 ++
    (List.range 8).map fun i => 8 * msg.length / 256 ^ i % 256

/-- Fold RIPEMD-160 compression over consecutive 64-byte blocks. -/
def rmdBlocks : Nat → List Nat → List Nat → List Nat
  | 0, h, _ => h
  | fuel + 1, h, msg =>
    match msg with
    | [] => h
    | _ => rmdBlocks fuel (rmdCompress h (msg.take 64)) (msg.drop 64)

/-- Modelled from the spec: standard RIPEMD-160 (`utils.ripemd160` is not
under `src/`; §6: `RIPEMD-160: bytes → 20 bytes`, standard, bit-exact). -/
def ripemd160 (msg : List Nat) : List Nat :=
  let padded := rmdPad msg
  wordsToBytesLE (rmdBlocks padded.length rmdH0 padded)

/-- The standard Base58 alphabet (spec §6). -/
def b58alphabet : List Char :=
  "123456789ABCDEFGHJKLMNPQRSTUVWXYZabcdefghijkmnopqrstuvwxyz".toList

/-- Base-58 digits of `n`, most significant first (fueled division loop). -/
def b58digits : Nat → Nat → List Char → List Char
  | 0, _, acc => acc
  | fuel + 1, n, acc =>
    if n = 0 then acc
    else b58digits fuel (n / 58) (b58alphabet.getD (n % 58) '1' :: acc)

/-- Modelled from the spec: `utils.b58encode` is not under `src/`; §6
specifies it as the standard Base58 scheme: each leading `0x00` byte maps to
a leading `'1'` character, and the numeric value of the bytes is converted
to base-58 digits, most significant first. -/
def b58encode (bs : List Nat) : String :=
  let n := bs.foldl (fun acc b => acc * 256 + b) 0
  let ones := (bs.takeWhile (fun b => b = 0)).map fun _ => '1'
  String.mk (ones ++ b58digits (8 * bs.length + 1) n [])

/-- Python `PublicKey.encode(compressed, hash160)`: SEC encoding of the point,
optionally hashed with `RIPEMD-160 ∘ SHA-256`.  A `None` coordinate would
raise a Python `TypeError` (`self.y % 2` on `None`). -/
def PublicKey.encode (P : Point) (compressed hash160 : Bool) : Except PyErr (List Nat) :=
  match P.x, P.y with
  | some x, some y => do
    let pkb ←
      if compressed then do
        let xb ← to_bytes_big x 32
        pure ((if y % 2 = 0 then 0x02 else 0x03) :: xb)
      else do
        let xb ← to_bytes_big x 32
        let yb ← to_bytes_big y 32
        pure (0x04 :: (xb ++ yb))
    pure (if hash160 then ripemd160 (sha256 pkb) else pkb)
  | _, _ => .error .typeError

/-- Python `PublicKey.address(net, compressed)`: assert the network tag, hash the
SEC bytes, prepend the version byte, append the first 4 bytes of the double
SHA-256 checksum, and Base58-encode the 25 bytes. -/
def PublicKey.address (P : Point) (net : String) (compressed : Bool) : Except PyErr String :=
  if net = "main" ∨ net = "test" then do
    let pkbHash ← PublicKey.encode P compressed true
    let verPkbHash := (if net = "main" then [0x00] else [0x6f]) ++ pkbHash
    let checksum := (sha256 (sha256 verPkbHash)).take 4
    pure (b58encode (verPkbHash ++ checksum))
  else .error .domainError

/-- Python `PrivateKey.get_public_key`: `secret * generator_point`, promoted to a
`PublicKey` (`PublicKey.from_point` copies the same curve and coordinates,
so the promotion is the identity on the underlying record). -/
def PrivateKey.get_public_key (secret : Nat) (generatorPoint : Point) : Except PyErr Point :=
  Point.rmul secret generatorPoint

/-- The secp256k1 curve as constructed in `src/tests.py` / `src/wip.py`. -/
def bitcoin_curve : Curve :=
  ⟨0xFFFFFFFFFFFFFFFFFFFFFFFFFFFFFFFFFFFFFFFFFFFFFFFFFFFFFFFEFFFFFC2F, 0, 7⟩

/-- The secp256k1 generator point as constructed in `src/tests.py`. -/
def bitcoin_G : Point :=
  ⟨some bitcoin_curve,
   some 0x79BE667EF9DCBBAC55A06295CE870B07029BFCDB2DCE28D959F2815B16F81798,
   some 0x483ADA7726A3C4655DA4FBFC0E1108A8FD17B448A68554199C47D08FFB10D4B8⟩

/-- A small valid curve used as a concrete test input: `y^2 = x^3 + x + 1`
over `F_11` (prime `p = 11 > 3`, discriminant `4 + 27 = 31 ≢ 0`). -/
def c11 : Curve := ⟨11, 1, 1⟩

/-- The point `(2, 0)` on `c11` (`2^3 + 2 + 1 = 11 ≡ 0 = 0^2`): an on-curve
point of order two (its `y`-coordinate is `0`). -/
def P20 : Point := ⟨some c11, some 2, some 0⟩

/-- The point `(1, 5)` on `c11` (`1 + 1 + 1 = 3 ≡ 25 mod 11`). -/
def P15 : Point := ⟨some c11, some 1, some 5⟩

/-- The curve named by the spec's off-curve example: `p = 17, a = 2, b = 2`
(prime `p`, discriminant `140 ≡ 4 ≢ 0 mod 17`). -/
def c17 : Curve := ⟨17, 2, 2⟩

/-- The point `(5, 1)`, which lies on `c17`: `5^3 + 2*5 + 2 = 137 ≡ 1 = 1^2 (mod 17)`. -/
def P51 : Point := ⟨some c17, some 5, some 1⟩

/-- The point `(5, 16)` on `c17` (`16^2 = 256 ≡ 1 (mod 17)`): the additive
inverse of `P51`. -/
def P516 : Point := ⟨some c17, some 5, some 16⟩

/-! ## Helper lemmas about the extended Euclidean algorithm and `inv` -/

/-- Bézout invariant of the loop: if both running pairs are `(a,b)`-linear
combinations, so is the output gcd with its output coefficients. -/
theorem eeaGo_bezout (a b : Int) : ∀ (fuel : Nat) (oldR r oldS s oldT t : Int),
    a * oldS + b * oldT = oldR → a * s + b * t = r →
    a * (eeaGo fuel oldR r oldS s oldT t).2.1 + b * (eeaGo fuel oldR r oldS s oldT t).2.2 =
      (eeaGo fuel oldR r oldS s oldT t).1 := by
  intro fuel
  induction fuel with
  | zero => intro oldR r oldS s oldT t h1 _; simpa [eeaGo] using h1
  | succ n ih =>
    intro oldR r oldS s oldT t h1 h2
    by_cases hr : r = 0
    · simpa [eeaGo, hr] using h1
    · simp only [eeaGo, if_neg hr]
      exact ih r (oldR - oldR / r * r) s (oldS - oldR / r * s) t (oldT - oldR / r * t) h2
        (by linear_combination h1 - (oldR / r) * h2)

/-- The first output of the loop divides both running remainders, provided
the fuel dominates the (non-negative) remainder. -/
theorem eeaGo_dvd : ∀ (fuel : Nat) (oldR r oldS s oldT t : Int), 0 ≤ r → r.natAbs < fuel →
    (eeaGo fuel oldR r oldS s oldT t).1 ∣ oldR ∧ (eeaGo fuel oldR r oldS s oldT t).1 ∣ r := by
  intro fuel
  induction fuel with
  | zero => intro _ r _ _ _ _ _ h; omega
  | succ n ih =>
    intro oldR r oldS s oldT t hr hlt
    by_cases h0 : r = 0
    · subst h0; simp [eeaGo]
    · simp only [eeaGo, if_neg h0]
      have hrpos : 0 < r := lt_of_le_of_ne hr (Ne.symm h0)
      have hmod : oldR - oldR / r * r = oldR % r := by rw [Int.emod_def]; ring
      have h1 : 0 ≤ oldR - oldR / r * r := by rw [hmod]; exact Int.emod_nonneg _ h0
      have h2 : (oldR - oldR / r * r).natAbs < n := by
        have := Int.emod_lt_of_pos oldR hrpos
        omega
      have hih := ih r (oldR - oldR / r * r) s (oldS - oldR / r * s) t (oldT - oldR / r * t) h1 h2
      refine ⟨?_, hih.1⟩
      have h3 := dvd_add hih.2 (hih.1.mul_left (oldR / r))
      have h4 : oldR - oldR / r * r + oldR / r * r = oldR := by ring
      rwa [h4] at h3

/-- Positivity invariant of the loop: once the pair is (positive, non-negative),
the output gcd is positive (regardless of the remaining fuel). -/
theorem eeaGo_pos_aux : ∀ (fuel : Nat) (oldR r oldS s oldT t : Int), 0 < oldR → 0 ≤ r →
    0 < (eeaGo fuel oldR r oldS s oldT t).1 := by
  intro fuel
  induction fuel with
  | zero => intro oldR r oldS s oldT t h1 _; simpa [eeaGo] using h1
  | succ n ih =>
    intro oldR r oldS s oldT t h1 h2
    by_cases h0 : r = 0
    · simpa [eeaGo, h0] using h1
    · simp only [eeaGo, if_neg h0]
      refine ih r (oldR - oldR / r * r) s _ t _ (lt_of_le_of_ne h2 (Ne.symm h0)) ?_
      have hmod : oldR - oldR / r * r = oldR % r := by rw [Int.emod_def]; ring
      rw [hmod]; exact Int.emod_nonneg _ h0

/-- Bézout identity for `extended_euclidean_algorithm(n, p)`. -/
theorem eea_bezout (n p : Int) :
    n * (extended_euclidean_algorithm n p).2.1 + p * (extended_euclidean_algorithm n p).2.2 =
      (extended_euclidean_algorithm n p).1 :=
  eeaGo_bezout n p _ n p 1 0 0 1 (by ring) (by ring)

/-- The first output of `extended_euclidean_algorithm(n, p)` divides `n` and `p`. -/
theorem eea_dvd (n p : Int) (hp : 0 ≤ p) :
    (extended_euclidean_algorithm n p).1 ∣ n ∧ (extended_euclidean_algorithm n p).1 ∣ p :=
  eeaGo_dvd _ n p 1 0 0 1 hp (Nat.lt_succ_self _)

/-- The first output of `extended_euclidean_algorithm(n, p)` is positive when `p` is. -/
theorem eea_pos (n p : Int) (hp : 0 < p) : 0 < (extended_euclidean_algorithm n p).1 := by
  have h0 : p ≠ 0 := ne_of_gt hp
  unfold extended_euclidean_algorithm
  simp only [eeaGo, if_neg h0]
  refine eeaGo_pos_aux _ p (n - n / p * p) _ _ _ _ hp ?_
  have hmod : n - n / p * p = n % p := by rw [Int.emod_def]; ring
  rw [hmod]; exact Int.emod_nonneg _ h0

/-- Main correctness of the modular inverse: for a prime modulus `p` and `n`
not a multiple of `p`, `n * inv n p ≡ 1` and the representative is reduced. -/
theorem inv_mul_emod (n p : Int) (hp1 : 1 < p) (hprime : Prime p) (hn : ¬ p ∣ n) :
    n * inv n p % p = 1 := by
  have hp0 : 0 < p := by omega
  obtain ⟨hdn, hdp⟩ := eea_dvd n p (le_of_lt hp0)
  have hb := eea_bezout n p
  have hg := eea_pos n p hp0
  have hgn : (extended_euclidean_algorithm n p).1.natAbs ∣ p.natAbs :=
    Int.natAbs_dvd_natAbs.mpr hdp
  have hpn : Nat.Prime p.natAbs := Int.prime_iff_natAbs_prime.mp hprime
  rcases hpn.eq_one_or_self_of_dvd _ hgn with h | h
  · have hg1 : (extended_euclidean_algorithm n p).1 = 1 := by omega
    rw [hg1] at hb
    calc n * inv n p % p
        = n * (extended_euclidean_algorithm n p).2.1 % p := by
          unfold inv
          rw [Int.mul_emod, Int.emod_emod_of_dvd _ dvd_rfl, ← Int.mul_emod]
      _ = (1 + p * -(extended_euclidean_algorithm n p).2.2) % p := by
          rw [show n * (extended_euclidean_algorithm n p).2.1 =
            1 + p * -(extended_euclidean_algorithm n p).2.2 by linarith]
      _ = 1 % p := Int.add_mul_emod_self_left 1 p _
      _ = 1 := Int.emod_eq_of_lt (by omega) (by omega)
  · exfalso
    have : (extended_euclidean_algorithm n p).1 = p := by omega
    exact hn (this ▸ hdn)

/-- An integer strictly between `-p` and `p` and non-zero is not a multiple
of `p`. -/
theorem not_dvd_of_bounds (p d : Int) (hd : d ≠ 0) (h1 : -p < d) (h2 : d < p) : ¬ p ∣ d := by
  intro h
  have := Int.eq_zero_of_dvd_of_natAbs_lt_natAbs h (by omega)
  omega

/-- Claim C2: for a prime modulus `p` and any integer `n` (negative values
included) that is not a multiple of `p`, `inv n p` is the unique `m` in
`[0, p)` with `n * m ≡ 1 (mod p)`. -/
theorem c2_inv_unique (n p : Int) (hp1 : 1 < p) (hprime : Prime p) (hn : ¬ p ∣ n) :
    0 ≤ inv n p ∧ inv n p < p ∧ n * inv n p % p = 1 ∧
    ∀ m : Int, 0 ≤ m → m < p → n * m % p = 1 → m = inv n p := by
  have hp0 : 0 < p := by omega
  refine ⟨Int.emod_nonneg _ (by omega), Int.emod_lt_of_pos _ hp0,
    inv_mul_emod n p hp1 hprime hn, ?_⟩
  intro m hm0 hmp hmod
  have h1 := inv_mul_emod n p hp1 hprime hn
  have heq : n * m % p = n * inv n p % p := by rw [hmod, h1]
  have hd : p ∣ n * m - n * inv n p :=
    Int.dvd_of_emod_eq_zero (Int.emod_eq_emod_iff_emod_sub_eq_zero.mp heq)
  have hd2 : p ∣ n * (m - inv n p) := by rw [mul_sub]; exact hd
  rcases hprime.dvd_mul.mp hd2 with h | h
  · exact absurd h hn
  · have hb1 : 0 ≤ inv n p := Int.emod_nonneg _ (by omega)
    have hb2 : inv n p < p := Int.emod_lt_of_pos _ hp0
    have := Int.eq_zero_of_dvd_of_natAbs_lt_natAbs h (by omega)
    omega

/-- Witness for C2 at the concrete input `p = 11`, `n = -4` (a negative `n`,
as produced by coordinate differences): the inverse is `8`. -/
theorem c2_inv_unique_witness :
    0 ≤ inv (-4) 11 ∧ inv (-4) 11 < 11 ∧ (-4) * inv (-4) 11 % 11 = 1 ∧ (8 : Int) = inv (-4) 11 := by
  have h := c2_inv_unique (-4) 11 (by norm_num) (by norm_num) (by omega)
  exact ⟨h.1, h.2.1, h.2.2.1, h.2.2.2 8 (by norm_num) (by norm_num) (by decide)⟩

/-! ## Commutativity of point addition (claim C4) -/

/-- A `valid` curve has a prime (integer) modulus. -/
theorem Curve.valid.prime_p {c : Curve} (hc : c.valid) : Prime c.p := by
  rw [Int.prime_iff_natAbs_prime]
  have h3 := hc.1
  have : c.p.natAbs = c.p.toNat := by omega
  rw [this]; exact hc.2.2

/-- Unfolding equation for `mkAddResult`. -/
theorem mkAddResult_def (c : Curve) (m x1 y1 x2 : Int) :
    mkAddResult c m x1 y1 x2 =
      mkPoint (some c) (some ((m ^ 2 - x1 - x2) % c.p))
        (some ((-(m * ((m ^ 2 - x1 - x2) % c.p - x1) + y1)) % c.p)) := rfl

/-- The two distinct-`x` slope computations of `P + Q` and `Q + P` produce
the same `rx`, `ry` (hence the very same constructor call): the slopes are
congruent mod `p` because `inv (x2 - x1) ≡ -inv (x1 - x2)`. -/
theorem mkAddResult_comm (c : Curve) (x1 y1 x2 y2 : Int) (hc : c.valid)
    (hx1 : 0 ≤ x1) (hx1p : x1 < c.p) (hx2 : 0 ≤ x2) (hx2p : x2 < c.p)
    (hne : x1 ≠ x2) :
    mkAddResult c ((y1 - y2) * inv (x1 - x2) c.p) x1 y1 x2 =
      mkAddResult c ((y2 - y1) * inv (x2 - x1) c.p) x2 y2 x1 := by
  have hp1 : 1 < c.p := by have := hc.1; omega
  have hprime : Prime c.p := hc.prime_p
  have hd : ¬ c.p ∣ (x1 - x2) := not_dvd_of_bounds _ _ (by omega) (by omega) (by omega)
  have hd' : ¬ c.p ∣ (x2 - x1) := not_dvd_of_bounds _ _ (by omega) (by omega) (by omega)
  have h1 : (x1 - x2) * inv (x1 - x2) c.p % c.p = 1 := inv_mul_emod _ _ hp1 hprime hd
  have h2 : (x2 - x1) * inv (x2 - x1) c.p % c.p = 1 := inv_mul_emod _ _ hp1 hprime hd'
  set u := inv (x1 - x2) c.p with hu_def
  set v := inv (x2 - x1) c.p with hv_def
  have one_mod : (1 : Int) % c.p = 1 := Int.emod_eq_of_lt (by omega) (by omega)
  have hu : c.p ∣ (x1 - x2) * u - 1 :=
    Int.dvd_of_emod_eq_zero (Int.emod_eq_emod_iff_emod_sub_eq_zero.mp (by rw [h1, one_mod]))
  have hv : c.p ∣ (x2 - x1) * v - 1 :=
    Int.dvd_of_emod_eq_zero (Int.emod_eq_emod_iff_emod_sub_eq_zero.mp (by rw [h2, one_mod]))
  have hsum : c.p ∣ u + v := by
    have hmul : c.p ∣ (x1 - x2) * (u + v) := by
      have he : (x1 - x2) * (u + v) = ((x1 - x2) * u - 1) - ((x2 - x1) * v - 1) := by ring
      rw [he]; exact dvd_sub hu hv
    rcases hprime.dvd_mul.mp hmul with h | h
    · exact absurd h hd
    · exact h
  have hm : c.p ∣ (y1 - y2) * u - (y2 - y1) * v := by
    have he : (y1 - y2) * u - (y2 - y1) * v = (y1 - y2) * (u + v) := by ring
    rw [he]; exact hsum.mul_left _
  have hrx : (((y1 - y2) * u) ^ 2 - x1 - x2) % c.p = (((y2 - y1) * v) ^ 2 - x2 - x1) % c.p := by
    rw [Int.emod_eq_emod_iff_emod_sub_eq_zero]
    apply Int.emod_eq_zero_of_dvd
    have he : ((y1 - y2) * u) ^ 2 - x1 - x2 - (((y2 - y1) * v) ^ 2 - x2 - x1) =
        ((y1 - y2) * u - (y2 - y1) * v) * ((y1 - y2) * u + (y2 - y1) * v) := by ring
    rw [he]; exact hm.mul_right _
  have hry : ∀ z : Int, (-((y1 - y2) * u * (z - x1) + y1)) % c.p =
      (-((y2 - y1) * v * (z - x2) + y2)) % c.p := by
    intro z
    rw [Int.emod_eq_emod_iff_emod_sub_eq_zero]
    apply Int.emod_eq_zero_of_dvd
    have he : (-((y1 - y2) * u * (z - x1) + y1)) - (-((y2 - y1) * v * (z - x2) + y2)) =
        (y1 - y2) * ((x1 - x2) * u - 1) - ((y1 - y2) * u - (y2 - y1) * v) * (z - x2) := by ring
    rw [he]; exact dvd_sub (hu.mul_left _) (hm.mul_right _)
  rw [mkAddResult_def, mkAddResult_def, hrx, hry]

/-- Claim C4: point addition is commutative, `P + Q == Q + P` under
structural point equality, for all points of the system on the same valid
curve (the point at infinity included); this covers the error outcomes too,
which coincide on both sides. -/
theorem c4_add_comm (c : Curve) (P Q : Point) (hc : c.valid)
    (hP : P.validOn c) (hQ : Q.validOn c) : Point.add P Q = Point.add Q P := by
  rcases hP with rfl | ⟨x1, y1, rfl, hx1, hx1p, hy1, hy1p, hon1⟩
  · rcases hQ with rfl | ⟨x2, y2, rfl, hx2, hx2p, hy2, hy2p, hon2⟩ <;> rfl
  · rcases hQ with rfl | ⟨x2, y2, rfl, hx2, hx2p, hy2, hy2p, hon2⟩
    · rfl
    · by_cases hxx : x1 = x2
      · by_cases hyy : y1 = y2
        · subst hxx; subst hyy; rfl
        · simp [Point.add, Point.is_ideal_point, hxx, hyy, Ne.symm hyy]
      · have h1 : Point.add ⟨some c, some x1, some y1⟩ ⟨some c, some x2, some y2⟩ =
            mkAddResult c ((y1 - y2) * inv (x1 - x2) c.p) x1 y1 x2 := by
          simp [Point.add, Point.is_ideal_point, hxx]
        have hxx2 : ¬ x2 = x1 := fun h => hxx h.symm
        have h2 : Point.add ⟨some c, some x2, some y2⟩ ⟨some c, some x1, some y1⟩ =
            mkAddResult c ((y2 - y1) * inv (x2 - x1) c.p) x2 y2 x1 := by
          simp [Point.add, Point.is_ideal_point, hxx2]
        rw [h1, h2]
        exact mkAddResult_comm c x1 y1 x2 y2 hc hx1 hx1p hx2 hx2p hxx

/-- Witness for C4 at the concrete points `(1,5)` and `(2,0)` on `c11`. -/
theorem c4_add_comm_witness : Point.add P15 P20 = Point.add P20 P15 :=
  c4_add_comm c11 P15 P20 (by decide)
    (Or.inr ⟨1, 5, rfl, by decide, by decide, by decide, by decide, by decide⟩)
    (Or.inr ⟨2, 0, rfl, by decide, by decide, by decide, by decide, by decide⟩)

/-! ## On-curve invariant (claim C3) -/

/-- Applying `mkPoint` to three present fields reduces to the curve-membership check. -/
theorem mkPoint_some (c : Curve) (x y : Int) :
    mkPoint (some c) (some x) (some y) =
      if onCurveEq c x y then .ok ⟨some c, some x, some y⟩ else .error .domainError := by
  unfold mkPoint
  rw [if_neg (by simp)]

/-- Any point successfully built by the slope tail of `Point.__add__` is a
valid finite point of its curve: the coordinates are freshly reduced mod `p`
and the constructor has just re-checked the curve equation. -/
theorem mkAddResult_validFin (c : Curve) (m x1 y1 x2 : Int) (hc : 3 < c.p) (R : Point)
    (h : mkAddResult c m x1 y1 x2 = .ok R) : R.validFin c := by
  have hp0 : (0 : Int) < c.p := by omega
  rw [mkAddResult_def, mkPoint_some] at h
  split at h
  · injection h with h2
    subst h2
    exact ⟨_, _, rfl, Int.emod_nonneg _ (by omega), Int.emod_lt_of_pos _ hp0,
      Int.emod_nonneg _ (by omega), Int.emod_lt_of_pos _ hp0, by assumption⟩
  · cases h

/-- Point addition preserves point validity: a successful sum of two valid
points of a valid curve is a valid point of the same curve. -/
theorem add_validOn (c : Curve) (P Q R : Point) (hc : c.valid)
    (hP : P.validOn c) (hQ : Q.validOn c) (h : Point.add P Q = .ok R) : R.validOn c := by
  rcases hP with rfl | ⟨x1, y1, rfl, hx1, hx1p, hy1, hy1p, hon1⟩
  · have h' : Point.add idealPoint Q = .ok Q := rfl
    rw [h'] at h
    exact (Except.ok.inj h) ▸ hQ
  · rcases hQ with rfl | ⟨x2, y2, rfl, hx2, hx2p, hy2, hy2p, hon2⟩
    · have h' : Point.add ⟨some c, some x1, some y1⟩ idealPoint =
          .ok ⟨some c, some x1, some y1⟩ := rfl
      rw [h'] at h
      exact (Except.ok.inj h) ▸ Or.inr ⟨x1, y1, rfl, hx1, hx1p, hy1, hy1p, hon1⟩
    · by_cases hxx : x1 = x2
      · by_cases hyy : y1 = y2
        · have h' : Point.add ⟨some c, some x1, some y1⟩ ⟨some c, some x2, some y2⟩ =
              mkAddResult c ((3 * x1 ^ 2 + c.a) * inv (2 * y1) c.p) x1 y1 x2 := by
            simp [Point.add, Point.is_ideal_point, hxx, hyy]
          rw [h'] at h
          exact Or.inr (mkAddResult_validFin _ _ _ _ _ hc.1 R h)
        · have h' : Point.add ⟨some c, some x1, some y1⟩ ⟨some c, some x2, some y2⟩ =
              .ok idealPoint := by
            simp [Point.add, Point.is_ideal_point, hxx, hyy]
          rw [h'] at h
          exact Or.inl (Except.ok.inj h).symm
      · have h' : Point.add ⟨some c, some x1, some y1⟩ ⟨some c, some x2, some y2⟩ =
            mkAddResult c ((y1 - y2) * inv (x1 - x2) c.p) x1 y1 x2 := by
          simp [Point.add, Point.is_ideal_point, hxx]
        rw [h'] at h
        exact Or.inr (mkAddResult_validFin _ _ _ _ _ hc.1 R h)

/-- The double-and-add loop preserves point validity of both its running
points, so a successful result is a valid point of the curve. -/
theorem rmulGo_validOn (c : Curve) (hc : c.valid) :
    ∀ (fuel k : Nat) (result append R : Point), result.validOn c → append.validOn c →
      rmulGo fuel k result append = .ok R → R.validOn c := by
  intro fuel
  induction fuel with
  | zero =>
    intro k result append R hres _ h
    have h' : (Except.ok result : Except PyErr Point) = Except.ok R := h
    exact (Except.ok.inj h') ▸ hres
  | succ n ih =>
    intro k result append R hres happ h
    by_cases hk : k = 0
    · subst hk
      have h' : (Except.ok result : Except PyErr Point) = Except.ok R := h
      exact (Except.ok.inj h') ▸ hres
    · simp only [rmulGo, if_neg hk] at h
      by_cases hk1 : k % 2 = 1
      · rw [if_pos hk1] at h
        cases h1 : Point.add result append with
        | error e =>
          rw [h1] at h
          exact absurd (show (Except.error e : Except PyErr Point) = .ok R from h) (by simp)
        | ok result' =>
          rw [h1] at h
          cases h2 : Point.add append append with
          | error e =>
            rw [h2] at h
            exact absurd (show (Except.error e : Except PyErr Point) = .ok R from h) (by simp)
          | ok append' =>
            rw [h2] at h
            exact ih (k / 2) result' append' R
              (add_validOn c result append result' hc hres happ h1)
              (add_validOn c append append append' hc happ happ h2)
              (show rmulGo n (k / 2) result' append' = .ok R from h)
      · rw [if_neg hk1] at h
        cases h2 : Point.add append append with
        | error e =>
          rw [h2] at h
          exact absurd (show (Except.error e : Except PyErr Point) = .ok R from h) (by simp)
        | ok append' =>
          rw [h2] at h
          exact ih (k / 2) result append' R hres
            (add_validOn c append append append' hc happ happ h2)
            (show rmulGo n (k / 2) result append' = .ok R from h)

/-- Claim C3: for finite valid points `P`, `Q` of a valid curve, every
finite point returned by `P + Q` satisfies the curve equation, and so does
every finite point returned by `k * P` for any non-negative scalar `k`. -/
theorem c3_on_curve (c : Curve) (P Q : Point) (hc : c.valid)
    (hP : P.validFin c) (hQ : Q.validFin c) :
    (∀ (R : Point) (x y : Int), Point.add P Q = .ok R → R.x = some x → R.y = some y →
      onCurveEq c x y) ∧
    (∀ (k : Nat) (R : Point) (x y : Int), Point.rmul k P = .ok R → R.x = some x →
      R.y = some y → onCurveEq c x y) := by
  have hval : ∀ R : Point, R.validOn c → ∀ x y : Int, R.x = some x → R.y = some y →
      onCurveEq c x y := by
    intro R hR x y hx hy
    rcases hR with rfl | ⟨x', y', rfl, _, _, _, _, hon⟩
    · exact absurd hx (by simp [idealPoint])
    · have hx' : x' = x := Option.some.inj hx
      have hy' : y' = y := Option.some.inj hy
      exact hx' ▸ hy' ▸ hon
  constructor
  · intro R x y h hx hy
    exact hval R (add_validOn c P Q R hc (Or.inr hP) (Or.inr hQ) h) x y hx hy
  · intro k R x y h hx hy
    exact hval R (rmulGo_validOn c hc (k + 1) k idealPoint P R (Or.inl rfl) (Or.inr hP) h) x y hx hy

/-- Witness for C3: on `c11`, `(1,5) + (2,0) = (0,1)` and `2 * (1,5) = (3,3)`,
and both results satisfy the curve equation. -/
theorem c3_on_curve_witness : onCurveEq c11 0 1 ∧ onCurveEq c11 3 3 := by
  have h := c3_on_curve c11 P15 P20 (by decide)
    ⟨1, 5, rfl, by decide, by decide, by decide, by decide, by decide⟩
    ⟨2, 0, rfl, by decide, by decide, by decide, by decide, by decide⟩
  exact ⟨h.1 ⟨some c11, some 0, some 1⟩ 0 1 (by decide) rfl rfl,
    h.2 2 ⟨some c11, some 3, some 3⟩ 3 3 (by decide) rfl rfl⟩

/-! ## Reachability of `inv` on a multiple of `p` (claim C5) -/

/-- Counterexample to claim C5 as stated: on the valid curve `c11`, doubling
the valid on-curve point `(2, 0)` calls the modular-inverse helper with the
argument `2*y = 0`, which is a multiple of `p`; so the inverse-of-a-multiple
case is reachable with all curve and point invariants holding. -/
theorem c5_counterexample :
    c11.valid ∧ Point.validFin c11 P20 ∧ (0 : Int) ∈ addInvArgs P20 P20 ∧ c11.p ∣ (0 : Int) :=
  ⟨by decide, ⟨2, 0, rfl, by decide, by decide, by decide, by decide, by decide⟩,
    by decide, dvd_zero _⟩

/-- Claim C5 as amended: for finite valid points `P`, `Q` of a valid curve,
no argument that `Point.__add__` passes to `inv` is a multiple of `p`,
except in the single case of doubling a point whose `y`-coordinate is `0`
(`P = Q` with `y = 0`), which the hypothesis excludes. -/
theorem c5_amended (c : Curve) (P Q : Point) (hc : c.valid)
    (hP : P.validFin c) (hQ : Q.validFin c) (hne : ¬(P = Q ∧ P.y = some 0)) :
    ∀ n ∈ addInvArgs P Q, ¬ c.p ∣ n := by
  obtain ⟨x1, y1, rfl, hx1, hx1p, hy1, hy1p, hon1⟩ := hP
  obtain ⟨x2, y2, rfl, hx2, hx2p, hy2, hy2p, hon2⟩ := hQ
  intro n hn
  by_cases hxx : x1 = x2
  · by_cases hyy : y1 = y2
    · have hy0 : y1 ≠ 0 := by
        intro h0
        exact hne ⟨by rw [hxx, hyy], by rw [h0]⟩
      have hargs : addInvArgs ⟨some c, some x1, some y1⟩ ⟨some c, some x2, some y2⟩ =
          [2 * y1] := by
        simp [addInvArgs, Point.is_ideal_point, hxx, hyy]
      rw [hargs] at hn
      have hn' : n = 2 * y1 := by simpa using hn
      subst hn'
      intro hdvd
      rcases hc.prime_p.dvd_mul.mp hdvd with h | h
      · have h2 := Int.le_of_dvd (by norm_num) h
        have h3 := hc.1
        omega
      · have := Int.eq_zero_of_dvd_of_natAbs_lt_natAbs h (by omega)
        omega
    · have hargs : addInvArgs ⟨some c, some x1, some y1⟩ ⟨some c, some x2, some y2⟩ = [] := by
        simp [addInvArgs, Point.is_ideal_point, hxx, hyy]
      rw [hargs] at hn
      simp at hn
  · have hargs : addInvArgs ⟨some c, some x1, some y1⟩ ⟨some c, some x2, some y2⟩ =
        [x1 - x2] := by
      simp [addInvArgs, Point.is_ideal_point, hxx]
    rw [hargs] at hn
    have hn' : n = x1 - x2 := by simpa using hn
    subst hn'
    exact not_dvd_of_bounds _ _ (by omega) (by omega) (by omega)

/-- Witness for the amended C5 at `(1,5) + (2,0)` on `c11`: the only `inv`
argument is `1 - 2 = -1`, not a multiple of `11`. -/
theorem c5_amended_witness : ¬ c11.p ∣ (-1 : Int) :=
  c5_amended c11 P15 P20 (by decide)
    ⟨1, 5, rfl, by decide, by decide, by decide, by decide, by decide⟩
    ⟨2, 0, rfl, by decide, by decide, by decide, by decide, by decide⟩
    (by decide) (-1) (by decide)

/-! ## Curve binding of produced points at infinity (claim C6) -/

/-- Counterexample to claim C6 as stated: on `c17`, the sum of the valid
points `(5,1)` and `(5,16)` (additive inverses) is the point at infinity
with `curve = None`, not bound to the operands' curve `c17`; likewise
`0 * (5,1)`. -/
theorem c6_counterexample :
    Point.add P51 P516 = .ok idealPoint ∧ Point.rmul 0 P51 = .ok idealPoint ∧
    P51.curve = some c17 ∧ P516.curve = some c17 ∧ idealPoint.curve = none ∧
    idealPoint.curve ≠ P51.curve :=
  ⟨by decide, by decide, rfl, rfl, rfl, by decide⟩

/-- Claim C6 as amended: every point-at-infinity value the system produces —
by `Point.from_ideal_point`, as `P + (-P)`, or as `0 * P` — is the same
record `Point(None, None, None)`, bound to no curve at all (its `curve`
field is `None`); addition still treats it as the identity. -/
theorem c6_amended (c : Curve) (x1 y1 x2 y2 : Int) (hx : x1 = x2) (hy : y1 ≠ y2) :
    Point.add ⟨some c, some x1, some y1⟩ ⟨some c, some x2, some y2⟩ = .ok idealPoint ∧
    Point.rmul 0 ⟨some c, some x1, some y1⟩ = .ok idealPoint ∧
    Point.from_ideal_point = .ok idealPoint ∧
    idealPoint.curve = none := by
  refine ⟨?_, rfl, rfl, rfl⟩
  simp [Point.add, Point.is_ideal_point, hx, hy]

/-- Witness for the amended C6 at `(5,1)` and `(5,16)` on `c17`. -/
theorem c6_amended_witness :
    Point.add ⟨some c17, some 5, some 1⟩ ⟨some c17, some 5, some 16⟩ = .ok idealPoint ∧
    Point.rmul 0 ⟨some c17, some 5, some 1⟩ = .ok idealPoint ∧
    Point.from_ideal_point = .ok idealPoint ∧
    idealPoint.curve = none :=
  c6_amended c17 5 1 5 16 rfl (by decide)

/-! ## Point construction contract (claims C7 and C8) -/

/-- Claim C7: constructing a finite point with integer coordinates fails
with a `DomainError` exactly when the curve equation is violated, and
constructing the point at infinity (both coordinates absent) always
succeeds, with no membership check, whatever the curve field is. -/
theorem c7_point_construction (cur : Option Curve) (c : Curve) (x y : Int) :
    (mkPoint (some c) (some x) (some y) = .error .domainError ↔ ¬ onCurveEq c x y) ∧
    mkPoint cur none none = .ok ⟨cur, none, none⟩ := by
  constructor
  · rw [mkPoint_some]
    by_cases h : onCurveEq c x y
    · simp [h]
    · simp [h]
  · unfold mkPoint
    rw [if_pos ⟨rfl, rfl⟩]

/-- Counterexample to claim C8 as stated: on the curve `p=17, a=2, b=2` the
point `(5,1)` satisfies the curve equation (`137 ≡ 1 ≡ 1² mod 17`), so its
construction succeeds instead of failing with a `DomainError`. -/
theorem c8_counterexample :
    mkPoint (some c17) (some 5) (some 1) = .ok P51 ∧ onCurveEq c17 5 1 := by
  exact ⟨by decide, by decide⟩

/-- Claim C8 as amended: `(5,1)` is on the curve `p=17,a=2,b=2` and its
construction succeeds there; the off-curve rejection exercised by the
repository's test constructs `(5,1)` on the secp256k1 curve, where it fails
with a `DomainError`. -/
theorem c8_amended :
    mkPoint (some c17) (some 5) (some 1) = .ok P51 ∧
    mkPoint (some bitcoin_curve) (some 5) (some 1) = .error .domainError := by
  exact ⟨by decide, by decide⟩

/-! ## SEC encoding shape (claim C9) -/

/-- Claim C9: for coordinates in `[0, 2^256)`, the compressed SEC encoding
is exactly 33 bytes — `0x02`/`0x03` by the parity of `y`, then the 32-byte
big-endian `x` — and the uncompressed encoding is exactly 65 bytes —
`0x04`, then 32-byte big-endian `x`, then 32-byte big-endian `y`. -/
theorem c9_sec_encoding (cur : Option Curve) (x y : Int)
    (hx0 : 0 ≤ x) (hx : x < 2 ^ 256) (hy0 : 0 ≤ y) (hy : y < 2 ^ 256) :
    PublicKey.encode ⟨cur, some x, some y⟩ true false =
      .ok ((if y % 2 = 0 then 0x02 else 0x03) :: bytesBE x 32) ∧
    ((if y % 2 = 0 then 0x02 else 0x03) :: bytesBE x 32).length = 33 ∧
    PublicKey.encode ⟨cur, some x, some y⟩ false false =
      .ok (0x04 :: (bytesBE x 32 ++ bytesBE y 32)) ∧
    (0x04 :: (bytesBE x 32 ++ bytesBE y 32)).length = 65 := by
  have hxb : to_bytes_big x 32 = .ok (bytesBE x 32) := by
    unfold to_bytes_big
    rw [if_pos ⟨hx0, by exact hx⟩]
  have hyb : to_bytes_big y 32 = .ok (bytesBE y 32) := by
    unfold to_bytes_big
    rw [if_pos ⟨hy0, by exact hy⟩]
  refine ⟨?_, ?_, ?_, ?_⟩
  · have e0 : PublicKey.encode ⟨cur, some x, some y⟩ true false =
        Except.bind (to_bytes_big x 32)
          (fun xb => Except.ok ((if y % 2 = 0 then 0x02 else 0x03) :: xb)) := rfl
    rw [e0, hxb]
    rfl
  · simp [bytesBE]
  · have e0 : PublicKey.encode ⟨cur, some x, some y⟩ false false =
        Except.bind (to_bytes_big x 32)
          (fun xb => Except.bind (to_bytes_big y 32)
            (fun yb => Except.ok (0x04 :: (xb ++ yb)))) := rfl
    rw [e0, hxb, hyb]
    rfl
  · simp [bytesBE]

/-- Witness for C9 at `x = 1`, `y = 2` (no curve bound): the hypotheses hold
and the encodings have the stated shapes. -/
theorem c9_sec_encoding_witness :
    PublicKey.encode ⟨none, some 1, some 2⟩ true false =
      .ok ((if (2 : Int) % 2 = 0 then 0x02 else 0x03) :: bytesBE 1 32) ∧
    ((if (2 : Int) % 2 = 0 then 0x02 else 0x03) :: bytesBE 1 32).length = 33 ∧
    PublicKey.encode ⟨none, some 1, some 2⟩ false false =
      .ok (0x04 :: (bytesBE 1 32 ++ bytesBE 2 32)) ∧
    (0x04 :: (bytesBE 1 32 ++ bytesBE 2 32)).length = 65 :=
  c9_sec_encoding none 1 2 (by norm_num) (by norm_num) (by norm_num) (by norm_num)

/-! ## Double-and-add versus repeated addition (claim C1) -/

/-- Claim C1 exhibit (code bug): on the valid curve `c11`, for the valid
on-curve point `P = (2,0)` (whose order is two), the double-and-add
`1 * P` raises "Point is not on the curve" — the loop computes
`append += append` even on the final bit, and doubling a `y = 0` point
divides by `inv(0, p) = 0`, producing an off-curve point that the `Point`
constructor rejects — while `P` added to itself once is just `P`.  So
`1 * P == P` fails, contradicting the spec and the intent of
`test_addition_same_as_multiplication`. -/
theorem c1_one_mul_bug :
    c11.valid ∧ Point.validFin c11 P20 ∧
    Point.rmul 1 P20 = .error .domainError ∧ repeatedAdd 1 P20 = .ok P20 :=
  ⟨by decide, ⟨2, 0, rfl, by decide, by decide, by decide, by decide, by decide⟩,
    by decide, by decide⟩

/-! ## End-to-end known vector (claim C10) -/

/-- Claim C10: on the secp256k1 curve with the standard generator `G`,
the public key derived from private key `1` is `G` itself, and its
compressed, test-network address is exactly
`"mrCDrCybB6J1vRfbwM5hemdJz73FwDBC8r"` (with SHA-256, RIPEMD-160 and
Base58 modelled bit-exactly per their spec contracts). -/
theorem c10_known_vector :
    PrivateKey.get_public_key 1 bitcoin_G = .ok bitcoin_G ∧
    PublicKey.address bitcoin_G "test" true = .ok "mrCDrCybB6J1vRfbwM5hemdJz73FwDBC8r" := by
  constructor
  · decide
  · decide
